import Mathlib

set_option maxRecDepth 4000

namespace MoodyBot

/-!
Shallow embedding of the scheduling and conflict-resolution engine in
`api/main.py`.  Times are modelled as integer seconds (Python `datetime`
at second resolution; the source's sub-second fields behave exactly like
seconds for every operation modelled here).  Durations and offsets are
minutes in the source and are converted with factor 60 wherever the
source adds a `timedelta(minutes=...)`.
-/

/-- Python `_round_block(dt, block)`: zero the seconds, then round the
minute-of-hour up to the next multiple of `block` when the remainder is
nonzero. -/
def roundBlock (t : Int) (block : Int) : Int :=
  if (t / 60) % 60 % block = 0 then 60 * (t / 60)
  else 60 * (t / 60) + 60 * (block - (t / 60) % 60 % block)

/-- ASCII whitespace, modelling the regex class `\s` and `str.strip`. -/
def isWsChar (c : Char) : Bool :=
  c = ' ' || c = '\t' || c = '\n' || c = '\r' || c = '\x0b' || c = '\x0c'

/-- ASCII lower-casing, modelling `str.lower` on the ASCII fragment. -/
def lowerChar (c : Char) : Char :=
  if 'A' ≤ c && c ≤ 'Z' then Char.ofNat (c.toNat + 32) else c

def digitChar (n : Nat) : Char := Char.ofNat (48 + n)

/-- Digit accumulation with an explicit budget, so that the definition is
structural and kernel-reducible; the budget `n + 1` always suffices. -/
def natCharsAux : Nat → Nat → List Char → List Char
  | 0, _, acc => acc
  | fuel + 1, n, acc =>
    if n < 10 then digitChar n :: acc
    else natCharsAux fuel (n / 10) (digitChar (n % 10) :: acc)

/-- Decimal digits of a natural number, most significant first
(Python `str` of a non-negative `int`). -/
def natChars (n : Nat) : List Char :=
  natCharsAux (n + 1) n []

/-- Decimal rendering of a Python `int`, sign included. -/
def intChars (i : Int) : List Char :=
  if i < 0 then '-' :: natChars i.natAbs else natChars i.toNat

/-- Value of a digit string (Python `int` applied to the matched group). -/
def numVal (ds : List Char) : Nat :=
  ds.foldl (fun a c => 10 * a + (c.toNat - 48)) 0

/-- Greedy digit span, modelling the regex `\d+`. -/
def takeDigits : List Char → List Char × List Char
  | [] => ([], [])
  | c :: cs =>
    if c.isDigit then
      let p := takeDigits cs
      (c :: p.1, p.2)
    else ([], c :: cs)

/-- Body of the duration-tag regex after the opening parenthesis:
`(\d+)\s*m\)` under `re.I`. -/
def tagBody (l : List Char) : Option Nat :=
  if (takeDigits l).1.isEmpty then none
  else
    match (takeDigits l).2.dropWhile isWsChar with
    | a :: b :: _ =>
      if (a = 'm' || a = 'M') && b = ')' then some (numVal (takeDigits l).1) else none
    | _ => none

/-- Leftmost match of `_DUR_TAG = \((\d+)\s*m\)` (case-insensitive), the
Python `re.search` over the label. -/
def durSearch : List Char → Option Nat
  | [] => none
  | c :: cs =>
    if c = '(' then
      match tagBody cs with
      | some v => some v
      | none => durSearch cs
    else durSearch cs

/-- Python `duration_from_event_title`: decode the `(<N>m)` tag, clamp to
[5,240]; default on absence of a tag; falsy titles give the default. -/
def duration_from_event_title (title : String) (default_min : Int := 30) : Int :=
  if title.data.isEmpty then default_min
  else
    match durSearch title.data with
    | none => default_min
    | some v => max 5 (min (v : Int) 240)

/-- One pass of `re.sub(r"\s+", " ", s)`: every maximal whitespace run
becomes a single space (the source strips first, so the run-start flag
begins false). -/
def collapseWs : Bool → List Char → List Char
  | _, [] => []
  | prevWs, c :: cs =>
    if isWsChar c then
      if prevWs then collapseWs true cs else ' ' :: collapseWs true cs
    else c :: collapseWs false cs

/-- Python `str.strip()` over the ASCII whitespace set. -/
def stripWs (s : List Char) : List Char :=
  ((s.dropWhile isWsChar).reverse.dropWhile isWsChar).reverse

/-- The `safe_title` computation inside `event_title_for_task`. -/
def safeTitle (s : List Char) : List Char :=
  (collapseWs false (stripWs s)).take 140

/-- Python `event_title_for_task`: `Task#<id> (<dur>m): <title>`. -/
def event_title_for_task (task_id : Nat) (task_title : String) (duration_min : Int) : String :=
  String.mk ("Task#".data ++ natChars task_id ++ " (".data ++ intChars duration_min
    ++ "m): ".data ++ safeTitle task_title.data)

/-- Equality of a leading segment (helper for substring containment). -/
def leadEq : List Char → List Char → Bool
  | [], _ => true
  | _ :: _, [] => false
  | p :: ps, c :: cs => p = c && leadEq ps cs

/-- Python `w in s` substring containment. -/
def containsSub (needle : List Char) : List Char → Bool
  | [] => needle.isEmpty
  | c :: cs => leadEq needle (c :: cs) || containsSub needle cs

def meetingHints : List String :=
  ["meeting", "call", "sync", "standup", "interview", "demo", "appointment", "review"]

/-- Python `is_meeting_title`: some meeting keyword occurs in the lowered
label. -/
def is_meeting_title (title : String) : Bool :=
  meetingHints.any fun w => containsSub w.data (title.data.map lowerChar)

/-- The strings stored in `start_time` / `scheduled_time` fields, as the
engine distinguishes them: absent or empty (falsy), the sentinel
`"unscheduled"`, a parseable ISO instant, or unparseable text. -/
inductive TimeStr where
  | noneT : TimeStr
  | unsched : TimeStr
  | iso : Int → TimeStr
  | malformed : TimeStr
deriving DecidableEq, Repr

/-- Python `_parse_iso`: a datetime for parseable ISO text, `None` for the
sentinel, absent or malformed text. -/
def parseIso : TimeStr → Option Int
  | .iso t => some t
  | _ => none

/-- Python truthiness of the underlying optional string. -/
def timeTruthy : TimeStr → Bool
  | .noneT => false
  | _ => true

/-- A stored calendar entry as the scheduler consumes it: its label and
its `start_time` field. -/
structure Ev where
  title : String
  start : TimeStr
deriving DecidableEq, Repr

/-- A busy interval `[b0, b1)` with its source label. -/
structure BusyI where
  b0 : Int
  b1 : Int
  title : String
deriving DecidableEq, Repr

/-- Stable insertion by start time (Python's `list.sort` is stable, and
`sortBusy` inserts originally-earlier elements in front of equal keys). -/
def insertBusy (x : BusyI) : List BusyI → List BusyI
  | [] => [x]
  | y :: ys => if y.b0 < x.b0 then y :: insertBusy x ys else x :: y :: ys

def sortBusy : List BusyI → List BusyI
  | [] => []
  | x :: xs => insertBusy x (sortBusy xs)

/-- The busy list built at the top of `find_next_available_slot` and
`ensure_no_conflict`: events with parseable starts, end = start + decoded
duration, sorted ascending by start. -/
def busyOf (events : List Ev) : List BusyI :=
  sortBusy (events.filterMap fun e =>
    match parseIso e.start with
    | none => none
    | some st => some ⟨st, st + 60 * duration_from_event_title e.title 30, e.title⟩)

/-- Outcome of the candidate-advance loop: an accepted slot, normal exit
at the horizon, or budget exhaustion (proved unreachable for positive
block sizes). -/
inductive LoopRes where
  | accepted : Int → LoopRes
  | horizonEnd : LoopRes
  | fuelOut : LoopRes
deriving DecidableEq, Repr

/-- First busy interval overlapping `[c, e)` in sorted order (the `break`
of the basic-overlap scan). -/
def firstOverlap (busy : List BusyI) (e c : Int) : Option BusyI :=
  busy.find? fun b => decide (b.b0 < e) && decide (c < b.b1)

/-- First meeting interval whose buffer zone intersects `[c, e)` (the
nap-rule scan). -/
def firstBufHit (busy : List BusyI) (e c buf : Int) : Option BusyI :=
  busy.find? fun b =>
    is_meeting_title b.title && decide (b.b0 - 60 * buf < e) && decide (c < b.b1 + 60 * buf)

/-- The `while candidate < horizon` loop of `find_next_available_slot`,
with an explicit iteration budget. -/
def findLoop (busy : List BusyI) (horizon block dur buf : Int) (avoid : Bool) :
    Nat → Int → LoopRes
  | 0, _ => .fuelOut
  | fuel + 1, c =>
    if c < horizon then
      match firstOverlap busy (c + 60 * dur) c with
      | some b => findLoop busy horizon block dur buf avoid fuel (roundBlock (b.b1 + 60) block)
      | none =>
        if avoid then
          match firstBufHit busy (c + 60 * dur) c buf with
          | some b =>
            findLoop busy horizon block dur buf avoid fuel
              (roundBlock (b.b1 + 60 * buf + 60) block)
          | none => .accepted c
        else .accepted c
    else .horizonEnd

/-- `find_next_available_slot` before the final fallback: the loop result
started at `roundBlock (after + 1min)` with horizon `after + 12h`. -/
def findSlotCore (events : List Ev) (after : Int) (block dur buf : Int) (avoid : Bool) :
    LoopRes :=
  let horizon := after + 43200
  let c0 := roundBlock (after + 60) block
  findLoop (busyOf events) horizon block dur buf avoid ((horizon - c0).toNat + 1) c0

/-- Python `find_next_available_slot` (the returned instant; the source
renders it with `isoformat`). -/
def find_next_available_slot (events : List Ev) (after : Int) (block : Int := 15)
    (duration_min : Int := 30) (buf : Int := 20) (avoid_naps : Bool := false) : Int :=
  match findSlotCore events after block duration_min buf avoid_naps with
  | .accepted t => t
  | _ => roundBlock (after + 43200) block

/-- Python `ensure_no_conflict`; `desired` is the parsed desired time and
`now` models `datetime.now()` for the missing-desired-time branch. -/
def ensure_no_conflict (desired : Option Int) (events : List Ev) (duration_min : Int)
    (avoid_naps : Bool) (now : Int) : Int × Bool :=
  match desired with
  | none => (find_next_available_slot events now 15 duration_min 20 avoid_naps, true)
  | some cand =>
    let e := cand + 60 * duration_min
    let busy := busyOf events
    match busy.find? (fun b => decide (b.b0 < e) && decide (cand < b.b1)) with
    | some _ => (find_next_available_slot events cand 15 duration_min 20 avoid_naps, true)
    | none =>
      if avoid_naps then
        match busy.find? (fun b =>
            is_meeting_title b.title && decide (b.b0 - 60 * 20 < e)
              && decide (cand < b.b1 + 60 * 20)) with
        | some _ => (find_next_available_slot events cand 15 duration_min 20 true, true)
        | none => (60 * (cand / 60), false)
      else (60 * (cand / 60), false)

/-- The accumulation loop of `staggered_slots`: append each slot not yet
seen. -/
def slotsLoop (f : Int → Int) : List Int → List Int → List Int
  | acc, [] => acc
  | acc, off :: rest =>
    slotsLoop f (if f off ∈ acc then acc else acc ++ [f off]) rest

/-- Python `staggered_slots`: per-offset slot finder, dedupe preserving
first-seen order, cap at 5. -/
def staggered_slots (events : List Ev) (base : Int) (offsets_min : List Int)
    (duration_min : Int) (avoid_naps : Bool) : List Int :=
  (slotsLoop
    (fun off => find_next_available_slot events (base + 60 * off) 15 duration_min 20 avoid_naps)
    [] offsets_min).take 5

/-- Case-insensitive leading-segment match; SQLite `LIKE` compares ASCII
letters case-insensitively. -/
def ciLead : List Char → List Char → Bool
  | [], _ => true
  | _ :: _, [] => false
  | p :: ps, c :: cs => lowerChar p = lowerChar c && ciLead ps cs

/-- The `LIKE 'Task#<id> %'` test of `find_event_for_task` applied to one
entry (`%` matches any suffix, so the test is a leading-segment match). -/
def matchesTask (task_id : Nat) (e : Ev) : Bool :=
  ciLead ("Task#".data ++ natChars task_id ++ [' ']) e.title.data

/-- Python `find_event_for_task`: first entry matching the pattern in
query order. -/
def find_event_for_task (events : List Ev) (task_id : Nat) : Option Ev :=
  events.find? (matchesTask task_id)

/-- Replace the first entry satisfying `p` (the in-place mutation of the
queried row). -/
def updateFirst (p : Ev → Bool) (new : Ev) : List Ev → List Ev
  | [] => []
  | e :: es => if p e then new :: es else e :: updateFirst p new es

/-- Delete the first entry satisfying `p`. -/
def removeFirst (p : Ev → Bool) : List Ev → List Ev
  | [] => []
  | e :: es => if p e then es else e :: removeFirst p es

/-- The `is_sched` test of `sync_task_event_on_update`:
`bool(stime) and stime != "unscheduled" and _parse_iso(stime) is not None`. -/
def isSchedOf (stime : TimeStr) : Bool :=
  timeTruthy stime && decide (stime ≠ TimeStr.unsched) && (parseIso stime).isSome

/-- Python `sync_task_event_on_update`, as a transformation of the stored
calendar entries (create / update-in-place / delete of the first matching
entry). -/
def sync_task_event_on_update (events : List Ev) (task_id : Nat) (task_title : String)
    (stime : TimeStr) (duration_min : Int := 30) : List Ev :=
  if isSchedOf stime then
    match events.find? (matchesTask task_id) with
    | some _ =>
      updateFirst (matchesTask task_id)
        ⟨event_title_for_task task_id task_title duration_min, stime⟩ events
    | none => events ++ [⟨event_title_for_task task_id task_title duration_min, stime⟩]
  else removeFirst (matchesTask task_id) events

/-- Python `create_task_db`, restricted to its calendar side effect: a
freshly created task with id `task_id` appends a mirrored entry iff the
requested schedule is truthy and not the sentinel. -/
def create_task_db (events : List Ev) (task_id : Nat) (desc : String) (sched : TimeStr)
    (duration_min : Int := 30) : List Ev :=
  if timeTruthy sched && decide (sched ≠ TimeStr.unsched) then
    events ++ [⟨event_title_for_task task_id desc duration_min, sched⟩]
  else events

/-- Number of stored entries matching task `task_id`'s lookup pattern. -/
def taskEntryCount (events : List Ev) (task_id : Nat) : Nat :=
  (events.filter (matchesTask task_id)).length

/-- A task as the reprioritization policy reads it. -/
structure TaskRec where
  user_priority : String
  effective_priority : String
  deadline : Option String
deriving DecidableEq, Repr

/-- Python `reprioritize` in `api/main.py` (the definition the `ai_chat`
sweep calls); `sent` is the `suggested_mood` lookup result, defaulting to
`"neutral"`. -/
def reprioritize (t : TaskRec) (sent : Option String) : TaskRec :=
  let mood := sent.getD "neutral"
  if mood = "tired" ∨ mood = "anxious" ∨ mood = "overwhelmed" then
    { t with effective_priority := "low" }
  else if mood = "focused" ∨ mood = "motivated" then
    { t with effective_priority := "high" }
  else
    { t with effective_priority := t.user_priority }

/-- The mood sweep of `ai_chat`: reprioritize every stored task. -/
def reprioritize_all (ts : List TaskRec) (sent : Option String) : List TaskRec :=
  ts.map (fun t => reprioritize t sent)

/-! Arithmetic facts about `roundBlock`. -/

lemma roundBlock_dvd (t block : Int) : (60 : Int) ∣ roundBlock t block := by
  unfold roundBlock
  split
  · exact Dvd.intro _ rfl
  · exact ⟨t / 60 + (block - t / 60 % 60 % block), by ring⟩

lemma sub_sixty_lt_roundBlock {block : Int} (hb : 0 < block) (t : Int) :
    t - 60 < roundBlock t block := by
  have hr0 : 0 ≤ t / 60 % 60 % block := Int.emod_nonneg _ (by omega)
  have hr1 : t / 60 % 60 % block < block := Int.emod_lt_of_pos _ hb
  unfold roundBlock
  split <;> omega

lemma lt_roundBlock {block : Int} (hb : 0 < block) {x y : Int} (h : x < y) :
    x < roundBlock (y + 60) block := by
  have := sub_sixty_lt_roundBlock hb (y + 60)
  omega

lemma le_roundBlock {block : Int} (hb : 0 < block) {t : Int} (h60 : (60 : Int) ∣ t) :
    t ≤ roundBlock t block := by
  have hr0 : 0 ≤ t / 60 % 60 % block := Int.emod_nonneg _ (by omega)
  have hr1 : t / 60 % 60 % block < block := Int.emod_lt_of_pos _ hb
  have ht : 60 * (t / 60) = t := by omega
  unfold roundBlock
  split <;> omega

lemma roundBlock_fix {block : Int} (t : Int) (h60 : (60 : Int) ∣ t)
    (hr : t / 60 % 60 % block = 0) : roundBlock t block = t := by
  have ht : 60 * (t / 60) = t := by omega
  unfold roundBlock
  rw [if_pos hr, ht]

/-! Behaviour of the candidate-advance loop. -/

lemma firstOverlap_none {busy : List BusyI} {e c : Int} (h : firstOverlap busy e c = none) :
    ∀ b ∈ busy, ¬(b.b0 < e ∧ c < b.b1) := by
  unfold firstOverlap at h
  intro b hb hover
  have := List.find?_eq_none.mp h b hb
  simp only [Bool.and_eq_true, decide_eq_true_eq] at this
  exact this hover

lemma firstOverlap_some {busy : List BusyI} {e c : Int} {b : BusyI}
    (h : firstOverlap busy e c = some b) : b.b0 < e ∧ c < b.b1 := by
  unfold firstOverlap at h
  have := List.find?_some h
  simpa using this

lemma firstBufHit_none {busy : List BusyI} {e c buf : Int}
    (h : firstBufHit busy e c buf = none) :
    ∀ b ∈ busy, is_meeting_title b.title = true →
      ¬(b.b0 - 60 * buf < e ∧ c < b.b1 + 60 * buf) := by
  unfold firstBufHit at h
  intro b hb hm hover
  have := List.find?_eq_none.mp h b hb
  simp only [Bool.and_eq_true, decide_eq_true_eq] at this
  exact this ⟨⟨hm, hover.1⟩, hover.2⟩

lemma firstBufHit_some {busy : List BusyI} {e c buf : Int} {b : BusyI}
    (h : firstBufHit busy e c buf = some b) :
    is_meeting_title b.title = true ∧ b.b0 - 60 * buf < e ∧ c < b.b1 + 60 * buf := by
  unfold firstBufHit at h
  have := List.find?_some h
  simp only [Bool.and_eq_true, decide_eq_true_eq] at this
  exact ⟨this.1.1, this.1.2, this.2⟩

lemma findLoop_accepted {busy : List BusyI} {horizon block dur buf : Int} {avoid : Bool} :
    ∀ (fuel : Nat) (c t : Int),
      findLoop busy horizon block dur buf avoid fuel c = .accepted t →
        (∀ b ∈ busy, ¬(b.b0 < t + 60 * dur ∧ t < b.b1)) ∧
        (avoid = true → ∀ b ∈ busy, is_meeting_title b.title = true →
          ¬(b.b0 - 60 * buf < t + 60 * dur ∧ t < b.b1 + 60 * buf)) := by
  intro fuel
  induction fuel with
  | zero => intro c t h; simp [findLoop] at h
  | succ n ih =>
    intro c t h
    rw [findLoop] at h
    split at h
    case isFalse => simp at h
    case isTrue hc =>
      split at h
      case h_1 b hfo => exact ih _ _ h
      case h_2 hfo =>
        split at h
        case isTrue hav =>
          split at h
          case h_1 b hfb => exact ih _ _ h
          case h_2 hfb =>
            cases h
            exact ⟨firstOverlap_none hfo, fun _ => firstBufHit_none hfb⟩
        case isFalse hav =>
          cases h
          exact ⟨firstOverlap_none hfo, fun hx => absurd hx hav⟩

lemma findLoop_accepted_dvd {busy : List BusyI} {horizon block dur buf : Int} {avoid : Bool} :
    ∀ (fuel : Nat) (c t : Int), (60 : Int) ∣ c →
      findLoop busy horizon block dur buf avoid fuel c = .accepted t → (60 : Int) ∣ t := by
  intro fuel
  induction fuel with
  | zero => intro c t _ h; simp [findLoop] at h
  | succ n ih =>
    intro c t hc60 h
    rw [findLoop] at h
    split at h
    case isFalse => simp at h
    case isTrue hc =>
      split at h
      case h_1 b hfo => exact ih _ _ (roundBlock_dvd _ _) h
      case h_2 hfo =>
        split at h
        case isTrue hav =>
          split at h
          case h_1 b hfb => exact ih _ _ (roundBlock_dvd _ _) h
          case h_2 hfb => cases h; exact hc60
        case isFalse hav => cases h; exact hc60

lemma findLoop_no_fuelOut {busy : List BusyI} {horizon block dur buf : Int} {avoid : Bool}
    (hb : 0 < block) :
    ∀ (fuel : Nat) (c : Int), (horizon - c).toNat < fuel →
      findLoop busy horizon block dur buf avoid fuel c ≠ .fuelOut := by
  intro fuel
  induction fuel with
  | zero => intro c h; omega
  | succ n ih =>
    intro c hfuel h
    rw [findLoop] at h
    split at h
    case isFalse => simp at h
    case isTrue hc =>
      split at h
      case h_1 b hfo =>
        have hp := firstOverlap_some hfo
        have hlt : c < roundBlock (b.b1 + 60) block := lt_roundBlock hb hp.2
        exact ih (roundBlock (b.b1 + 60) block) (by omega) h
      case h_2 hfo =>
        split at h
        case isTrue hav =>
          split at h
          case h_1 b hfb =>
            have hp := firstBufHit_some hfb
            have hlt : c < roundBlock (b.b1 + 60 * buf + 60) block :=
              lt_roundBlock hb hp.2.2
            exact ih (roundBlock (b.b1 + 60 * buf + 60) block) (by omega) h
          case h_2 hfb => simp at h
        case isFalse hav => simp at h

/-! Decimal-digit machinery: the budgeted accumulator agrees with itself
on any sufficient budget, digits are digit characters, and rendering is
injective (decoding returns the value). -/

lemma natCharsAux_spec (n : Nat) : ∀ (f : Nat) (acc : List Char), n < f →
    natCharsAux f n acc = natChars n ++ acc := by
  induction n using Nat.strong_induction_on with
  | _ n ih =>
    intro f acc hf
    obtain ⟨g, rfl⟩ : ∃ g, f = g + 1 := ⟨f - 1, by omega⟩
    by_cases h10 : n < 10
    · simp [natCharsAux, natChars, h10]
    · have hdiv : n / 10 < n := Nat.div_lt_self (by omega) (by omega)
      rw [natCharsAux, if_neg h10,
        ih (n / 10) hdiv g (digitChar (n % 10) :: acc) (by omega)]
      conv_rhs =>
        rw [natChars, natCharsAux, if_neg h10,
          ih (n / 10) hdiv n (digitChar (n % 10) :: []) (by omega)]
      simp

lemma natChars_lt {n : Nat} (h : n < 10) : natChars n = [digitChar n] := by
  simp [natChars, natCharsAux, h]

lemma natChars_ge {n : Nat} (h : 10 ≤ n) :
    natChars n = natChars (n / 10) ++ [digitChar (n % 10)] := by
  have hdiv : n / 10 < n := Nat.div_lt_self (by omega) (by omega)
  conv_lhs =>
    rw [natChars, natCharsAux, if_neg (by omega : ¬ n < 10),
      natCharsAux_spec (n / 10) n (digitChar (n % 10) :: []) (by omega)]

lemma digitChar_facts : ∀ m : Nat, m < 10 →
    (digitChar m).isDigit = true ∧ digitChar m ≠ '(' ∧
    lowerChar (digitChar m) = digitChar m ∧ digitChar m ≠ ' ' ∧
    (digitChar m).toNat = 48 + m := by decide

lemma digitChar_lower_inj : ∀ m1 : Nat, m1 < 10 → ∀ m2 : Nat, m2 < 10 →
    lowerChar (digitChar m1) = lowerChar (digitChar m2) → digitChar m1 = digitChar m2 := by
  decide

lemma natChars_mem (n : Nat) : ∀ c ∈ natChars n, ∃ m, m < 10 ∧ c = digitChar m := by
  induction n using Nat.strong_induction_on with
  | _ n ih =>
    by_cases h10 : n < 10
    · rw [natChars_lt h10]
      intro c hc
      simp only [List.mem_singleton] at hc
      exact ⟨n, h10, hc⟩
    · rw [natChars_ge (by omega)]
      intro c hc
      rcases List.mem_append.mp hc with hc | hc
      · exact ih (n / 10) (Nat.div_lt_self (by omega) (by omega)) c hc
      · simp only [List.mem_singleton] at hc
        exact ⟨n % 10, by omega, hc⟩

lemma natChars_ne_nil (n : Nat) : natChars n ≠ [] := by
  by_cases h10 : n < 10
  · rw [natChars_lt h10]; simp
  · rw [natChars_ge (by omega)]; simp

lemma numVal_natChars (n : Nat) : numVal (natChars n) = n := by
  induction n using Nat.strong_induction_on with
  | _ n ih =>
    by_cases h10 : n < 10
    · rw [natChars_lt h10]
      have ht : (digitChar n).toNat = 48 + n := (digitChar_facts n h10).2.2.2.2
      simp [numVal, ht]
    · rw [natChars_ge (by omega)]
      have ihd := ih (n / 10) (Nat.div_lt_self (by omega) (by omega))
      have ht : (digitChar (n % 10)).toNat = 48 + n % 10 :=
        (digitChar_facts _ (by omega)).2.2.2.2
      unfold numVal at ihd ⊢
      rw [List.foldl_append, ihd]
      simp only [List.foldl_cons, List.foldl_nil, ht]
      omega

lemma natChars_inj {a b : Nat} (h : natChars a = natChars b) : a = b := by
  have := congrArg numVal h
  rwa [numVal_natChars, numVal_natChars] at this

/-! Scanning lemmas for the duration-tag regex. -/

lemma durSearch_cons {c : Char} {cs : List Char} (h : c ≠ '(') :
    durSearch (c :: cs) = durSearch cs := by
  conv_lhs => rw [durSearch]
  rw [if_neg h]

lemma durSearch_append {xs ys : List Char} (h : ∀ c ∈ xs, c ≠ '(') :
    durSearch (xs ++ ys) = durSearch ys := by
  induction xs with
  | nil => rfl
  | cons c cs ih =>
    rw [List.cons_append, durSearch_cons (h c (by simp)),
      ih (fun d hd => h d (by simp [hd]))]

lemma takeDigits_split {ds : List Char} {y : Char} {r : List Char}
    (hds : ∀ c ∈ ds, c.isDigit = true) (hy : y.isDigit = false) :
    takeDigits (ds ++ y :: r) = (ds, y :: r) := by
  induction ds with
  | nil => simp [takeDigits, hy]
  | cons d ds ih =>
    have hd : d.isDigit = true := hds d (by simp)
    have hrest : ∀ c ∈ ds, c.isDigit = true := fun c hc => hds c (by simp [hc])
    simp [takeDigits, hd, ih hrest]

lemma tagBody_digits (n : Nat) (rest : List Char) :
    tagBody (natChars n ++ 'm' :: ')' :: rest) = some n := by
  have hds : ∀ c ∈ natChars n, c.isDigit = true := by
    intro c hc
    obtain ⟨m, hm, rfl⟩ := natChars_mem n c hc
    exact (digitChar_facts m hm).1
  unfold tagBody
  rw [takeDigits_split hds (by decide)]
  rw [if_neg (by simpa [List.isEmpty_iff] using natChars_ne_nil n)]
  rw [List.dropWhile_cons, if_neg (by decide)]
  simp [numVal_natChars]

lemma durSearch_tagged (pre : List Char) (hpre : ∀ c ∈ pre, c ≠ '(') (n : Nat)
    (rest : List Char) :
    durSearch (pre ++ '(' :: (natChars n ++ 'm' :: ')' :: rest)) = some n := by
  rw [durSearch_append hpre]
  unfold durSearch
  rw [if_pos rfl, tagBody_digits]

/-! The generated title in normal form, and the case-insensitive lookup. -/

lemma event_title_data (tid : Nat) (title : String) (dur : Int) :
    (event_title_for_task tid title dur).data
      = ['T', 'a', 's', 'k', '#'] ++ (natChars tid ++ (' ' :: '(' ::
          (intChars dur ++ ('m' :: ')' :: ':' :: ' ' :: safeTitle title.data)))) := by
  show "Task#".data ++ natChars tid ++ " (".data ++ intChars dur ++ "m): ".data
      ++ safeTitle title.data = _
  have h5 : "Task#".data = ['T', 'a', 's', 'k', '#'] := rfl
  have h2 : " (".data = [' ', '('] := rfl
  have h4 : "m): ".data = ['m', ')', ':', ' '] := rfl
  rw [h5, h2, h4]
  simp [List.append_assoc]

lemma ciLead_self_append : ∀ xs ys : List Char, ciLead xs (xs ++ ys) = true := by
  intro xs ys
  induction xs with
  | nil => rfl
  | cons a as ih => simp [ciLead, ih]

lemma ciLead_append_cancel : ∀ xs p c : List Char,
    ciLead (xs ++ p) (xs ++ c) = ciLead p c := by
  intro xs p c
  induction xs with
  | nil => rfl
  | cons a as ih => simp [ciLead, ih]

lemma ciLead_digits_eq :
    ∀ d1 : List Char, (∀ c ∈ d1, ∃ m, m < 10 ∧ c = digitChar m) →
    ∀ (d2 r : List Char), (∀ c ∈ d2, ∃ m, m < 10 ∧ c = digitChar m) →
      ciLead (d1 ++ [' ']) (d2 ++ ' ' :: r) = true → d1 = d2 := by
  intro d1
  induction d1 with
  | nil =>
    intro _ d2 r h2 h
    cases d2 with
    | nil => rfl
    | cons e es =>
      exfalso
      obtain ⟨m, hm, rfl⟩ := h2 e (by simp)
      have hlow : lowerChar (digitChar m) = digitChar m := (digitChar_facts m hm).2.2.1
      have hne : digitChar m ≠ ' ' := (digitChar_facts m hm).2.2.2.1
      simp only [List.nil_append, List.cons_append, ciLead, Bool.and_eq_true,
        decide_eq_true_eq] at h
      exact hne (by rw [← hlow, ← h.1]; rfl)
  | cons a as ih =>
    intro h1 d2 r h2 h
    obtain ⟨m1, hm1, rfl⟩ := h1 a (by simp)
    cases d2 with
    | nil =>
      exfalso
      have hlow : lowerChar (digitChar m1) = digitChar m1 := (digitChar_facts m1 hm1).2.2.1
      have hne : digitChar m1 ≠ ' ' := (digitChar_facts m1 hm1).2.2.2.1
      simp only [List.cons_append, List.nil_append, ciLead, Bool.and_eq_true,
        decide_eq_true_eq] at h
      exact hne (by rw [← hlow, h.1]; rfl)
    | cons e es =>
      obtain ⟨m2, hm2, rfl⟩ := h2 e (by simp)
      simp only [List.cons_append, ciLead, Bool.and_eq_true, decide_eq_true_eq] at h
      have heq : digitChar m1 = digitChar m2 :=
        digitChar_lower_inj m1 hm1 m2 hm2 h.1
      rw [heq, ih (fun c hc => h1 c (by simp [hc])) es r
        (fun c hc => h2 c (by simp [hc])) h.2]

lemma matchesTask_own (tid : Nat) (ttl : String) (dur : Int) (s : TimeStr) :
    matchesTask tid ⟨event_title_for_task tid ttl dur, s⟩ = true := by
  unfold matchesTask
  show ciLead ("Task#".data ++ natChars tid ++ [' '])
      (event_title_for_task tid ttl dur).data = true
  rw [event_title_data]
  have h5 : "Task#".data = ['T', 'a', 's', 'k', '#'] := rfl
  rw [h5]
  have hsh : ['T', 'a', 's', 'k', '#'] ++ (natChars tid ++ (' ' :: '(' ::
      (intChars dur ++ ('m' :: ')' :: ':' :: ' ' :: safeTitle ttl.data))))
      = (['T', 'a', 's', 'k', '#'] ++ natChars tid ++ [' ']) ++ ('(' ::
          (intChars dur ++ ('m' :: ')' :: ':' :: ' ' :: safeTitle ttl.data))) := by
    simp [List.append_assoc]
  rw [hsh]
  exact ciLead_self_append _ _

lemma matchesTask_other {x y : Nat} (hxy : x ≠ y) (ttl : String) (dur : Int) (s : TimeStr) :
    matchesTask x ⟨event_title_for_task y ttl dur, s⟩ = false := by
  cases h : matchesTask x ⟨event_title_for_task y ttl dur, s⟩ with
  | false => rfl
  | true =>
  exfalso
  apply hxy
  unfold matchesTask at h
  rw [show ("Task#".data ++ natChars x ++ [' ']) =
    "Task#".data ++ (natChars x ++ [' ']) from by simp [List.append_assoc]] at h
  rw [show (⟨event_title_for_task y ttl dur, s⟩ : Ev).title = event_title_for_task y ttl dur
    from rfl, event_title_data] at h
  have h5 : "Task#".data = ['T', 'a', 's', 'k', '#'] := rfl
  rw [h5] at h
  rw [ciLead_append_cancel] at h
  exact natChars_inj (ciLead_digits_eq (natChars x) (natChars_mem x) (natChars y) _
    (natChars_mem y) h)

/-! Counting lemmas for the synchronizer invariant. -/

lemma count_of_find?_none {p : Ev → Bool} {l : List Ev} (h : l.find? p = none) :
    (l.filter p).length = 0 := by
  have hall := List.find?_eq_none.mp h
  induction l with
  | nil => rfl
  | cons e es ih =>
    have hpe : p e = false := by
      cases hx : p e with
      | false => rfl
      | true => exact absurd hx (hall e (by simp))
    rw [List.filter_cons, if_neg (by simp [hpe])]
    exact ih (by rw [List.find?_cons, hpe] at h; exact h) fun a ha => hall a (by simp [ha])

lemma count_updateFirst {p : Ev → Bool} {new : Ev} (hnew : p new = true) :
    ∀ l : List Ev, (l.filter p).length ≤ 1 → (l.find? p).isSome →
      ((updateFirst p new l).filter p).length = 1 := by
  intro l
  induction l with
  | nil => intro _ h; simp [List.find?] at h
  | cons e es ih =>
    intro hle hfind
    cases hpe : p e with
    | false =>
      rw [updateFirst, if_neg (by simp [hpe])]
      rw [List.filter_cons, if_neg (by simp [hpe])]
      rw [List.filter_cons, if_neg (by simp [hpe])] at hle
      rw [List.find?_cons, hpe] at hfind
      exact ih hle hfind
    | true =>
      rw [updateFirst, if_pos hpe]
      rw [List.filter_cons, if_pos (by simp [hnew])]
      rw [List.filter_cons, if_pos (by simp [hpe])] at hle
      simp only [List.length_cons] at hle ⊢
      omega

lemma count_removeFirst {p : Ev → Bool} :
    ∀ l : List Ev, (l.filter p).length ≤ 1 →
      ((removeFirst p l).filter p).length = 0 := by
  intro l
  induction l with
  | nil => intro _; rfl
  | cons e es ih =>
    intro hle
    cases hpe : p e with
    | false =>
      rw [removeFirst, if_neg (by simp [hpe])]
      rw [List.filter_cons, if_neg (by simp [hpe])]
      rw [List.filter_cons, if_neg (by simp [hpe])] at hle
      exact ih hle
    | true =>
      rw [removeFirst, if_pos hpe]
      rw [List.filter_cons, if_pos (by simp [hpe])] at hle
      simp only [List.length_cons] at hle
      omega

/-! Behaviour of the dedupe loop of `staggered_slots`. -/

lemma slotsLoop_nodup (f : Int → Int) :
    ∀ offs acc : List Int, acc.Nodup → (slotsLoop f acc offs).Nodup := by
  intro offs
  induction offs with
  | nil => intro acc h; exact h
  | cons o os ih =>
    intro acc h
    rw [slotsLoop]
    by_cases hm : f o ∈ acc
    · rw [if_pos hm]; exact ih acc h
    · rw [if_neg hm]
      refine ih _ ?_
      simp [List.nodup_append, h, hm]

lemma slotsLoop_sublist (f : Int → Int) :
    ∀ offs acc : List Int, ∃ r, slotsLoop f acc offs = acc ++ r ∧
      List.Sublist r (offs.map f) := by
  intro offs
  induction offs with
  | nil => intro acc; exact ⟨[], by simp [slotsLoop]⟩
  | cons o os ih =>
    intro acc
    rw [slotsLoop]
    by_cases hm : f o ∈ acc
    · rw [if_pos hm]
      obtain ⟨r, hr, hs⟩ := ih acc
      exact ⟨r, hr, hs.trans (List.sublist_cons_self _ _)⟩
    · rw [if_neg hm]
      obtain ⟨r, hr, hs⟩ := ih (acc ++ [f o])
      refine ⟨f o :: r, ?_, ?_⟩
      · rw [hr]; simp
      · exact List.Sublist.cons₂ _ hs

/-! Claim theorems. -/

/-- Claim C1: whenever the slot-finder loop accepts a candidate before the
12-hour horizon (not the best-effort fallback), the half-open interval
`[t, t + durationMinutes)` overlaps no busy interval derived from the
events, and with `avoid_naps = true` it also avoids the 20-minute buffer
zone around every meeting-titled interval; in particular, a 10-minute nap
requested at 10:10 against a 10:00–10:30 meeting resolves to 11:00 ≥ 10:50. -/
theorem find_slot_accepted_no_overlap_no_nap_buffer
    (events : List Ev) (after block dur : Int) (avoid : Bool) (t : Int)
    (h : findSlotCore events after block dur 20 avoid = .accepted t) :
    (∀ b ∈ busyOf events, ¬(b.b0 < t + 60 * dur ∧ t < b.b1)) ∧
    (avoid = true → ∀ b ∈ busyOf events, is_meeting_title b.title = true →
      ¬(b.b0 - 60 * 20 < t + 60 * dur ∧ t < b.b1 + 60 * 20)) ∧
    (ensure_no_conflict (some 36600) [⟨"meeting (30m)", .iso 36000⟩] 10 true 36600
       = (39600, true) ∧ (39000 : Int) ≤ 39600) := by
  simp only [findSlotCore] at h
  exact ⟨(findLoop_accepted _ _ _ h).1, (findLoop_accepted _ _ _ h).2, by decide, by decide⟩

/-- Witness for C1: the nap scenario itself is an accepted slot, and the
theorem instantiates on it. -/
theorem find_slot_accepted_no_overlap_no_nap_buffer_witness :
    findSlotCore [⟨"meeting (30m)", .iso 36000⟩] 36600 15 10 20 true
        = .accepted 39600 ∧
      ((∀ b ∈ busyOf [⟨"meeting (30m)", .iso 36000⟩],
          ¬(b.b0 < 39600 + 60 * 10 ∧ 39600 < b.b1)) ∧
        (true = true → ∀ b ∈ busyOf [⟨"meeting (30m)", .iso 36000⟩],
          is_meeting_title b.title = true →
            ¬(b.b0 - 60 * 20 < 39600 + 60 * 10 ∧ 39600 < b.b1 + 60 * 20)) ∧
        (ensure_no_conflict (some 36600) [⟨"meeting (30m)", .iso 36000⟩] 10 true 36600
           = (39600, true) ∧ (39000 : Int) ≤ 39600)) :=
  ⟨by decide,
    find_slot_accepted_no_overlap_no_nap_buffer
      [⟨"meeting (30m)", .iso 36000⟩] 36600 15 10 true 39600 (by decide)⟩

/-- Claim C3 counterexample: with busy 09:00–09:30 "Standup", a slot
requested at 09:00 with duration 30 and block 15 resolves to 09:45
(35100 s), not the claimed 09:30 (34200 s): the advance rule rounds
`interval_end + 1 minute` up to the block, skipping 09:30. -/
theorem standup_scenario_resolves_0945 :
    find_next_available_slot [⟨"Standup", .iso 32400⟩] 32400 15 30 20 false = 35100 ∧
      (35100 : Int) ≠ 34200 := by decide

/-- Claim C3 amended: an accepted slot is minute-aligned (a block-rounding
output) and collides with no busy interval, and the scenario resolves to
09:45. -/
theorem find_slot_accepted_aligned_and_free
    (events : List Ev) (after block dur buf : Int) (avoid : Bool) (t : Int)
    (h : findSlotCore events after block dur buf avoid = .accepted t) :
    (60 : Int) ∣ t ∧ (∀ b ∈ busyOf events, ¬(b.b0 < t + 60 * dur ∧ t < b.b1)) ∧
      find_next_available_slot [⟨"Standup", .iso 32400⟩] 32400 15 30 20 false = 35100 := by
  simp only [findSlotCore] at h
  exact ⟨findLoop_accepted_dvd _ _ _ (roundBlock_dvd _ _) h,
    (findLoop_accepted _ _ _ h).1, by decide⟩

/-- Witness for C3's amended theorem at the Standup scenario. -/
theorem find_slot_accepted_aligned_and_free_witness :
    findSlotCore [⟨"Standup", .iso 32400⟩] 32400 15 30 20 false = .accepted 35100 ∧
      ((60 : Int) ∣ 35100 ∧
        (∀ b ∈ busyOf [⟨"Standup", .iso 32400⟩], ¬(b.b0 < 35100 + 60 * 30 ∧ 35100 < b.b1)) ∧
        find_next_available_slot [⟨"Standup", .iso 32400⟩] 32400 15 30 20 false = 35100) :=
  ⟨by decide,
    find_slot_accepted_aligned_and_free [⟨"Standup", .iso 32400⟩] 32400 15 30 20 false 35100
      (by decide)⟩

/-- Claim C4 counterexample: resolving 10:00 against an empty busy set
returns (10:00, unchanged), but re-running the resolver on that result
with the busy set extended by the task's own `Task#1 (30m)` entry at
10:00 collides with that entry and shifts to 10:45 with changed = true —
not (10:00, false) as claimed. -/
theorem rerun_with_own_entry_shifts :
    ensure_no_conflict (some 36000) [] 30 false 0 = (36000, false) ∧
      ensure_no_conflict (some 36000)
        [⟨event_title_for_task 1 "task one" 30, .iso 36000⟩] 30 false 0 = (38700, true) := by
  decide

/-- Claim C4 amended: re-running the Conflict Resolver on an accepted
slot-finder result against the same busy set (without the newly placed
task's own entry) returns the same time with changed = false. -/
theorem resolver_idempotent_without_self_entry
    (events : List Ev) (after dur : Int) (avoid : Bool) (t now : Int)
    (h : findSlotCore events after 15 dur 20 avoid = .accepted t) :
    ensure_no_conflict (some t) events dur avoid now = (t, false) := by
  simp only [findSlotCore] at h
  have hprops := findLoop_accepted _ _ _ h
  have hdvd : (60 : Int) ∣ t := findLoop_accepted_dvd _ _ _ (roundBlock_dvd _ _) h
  have ht : 60 * (t / 60) = t := by
    obtain ⟨k, rfl⟩ := hdvd
    omega
  have hov : (busyOf events).find?
      (fun b => decide (b.b0 < t + 60 * dur) && decide (t < b.b1)) = none := by
    rw [List.find?_eq_none]
    intro b hb
    simp only [Bool.and_eq_true, decide_eq_true_eq]
    exact hprops.1 b hb
  cases avoid with
  | false =>
    simp only [ensure_no_conflict, hov]
    rw [if_neg (by simp)]
    rw [ht]
  | true =>
    have hnap : (busyOf events).find? (fun b =>
        is_meeting_title b.title && decide (b.b0 - 60 * 20 < t + 60 * dur)
          && decide (t < b.b1 + 60 * 20)) = none := by
      rw [List.find?_eq_none]
      intro b hb
      simp only [Bool.and_eq_true, decide_eq_true_eq, not_and]
      intro hm
      exact fun hlt2 => (hprops.2 rfl b hb hm.1) ⟨hm.2, hlt2⟩
    simp only [ensure_no_conflict, hov, hnap]
    rw [if_pos trivial, ht]

/-- Witness for C4's amended theorem: the accepted slot 00:15 for an empty
busy set is a fixed point of the resolver. -/
theorem resolver_idempotent_without_self_entry_witness :
    findSlotCore [] 0 15 30 20 false = .accepted 900 ∧
      ensure_no_conflict (some 900) [] 30 false 0 = (900, false) :=
  ⟨by decide, resolver_idempotent_without_self_entry [] 0 30 false 900 0 (by decide)⟩

/-- Claim C6 counterexample: at 00:00:30 (30 s) with block 15 the rounding
returns 00:00:00, which is strictly earlier than the input — zeroing the
seconds moves the result backward, refuting "never moves backward" for
inputs with nonzero seconds. -/
theorem roundBlock_moves_backward_at_seconds :
    roundBlock 30 15 < 30 ∧ (0 : Int) < 15 := by decide

/-- Claim C6 amended: for minute-aligned inputs (zero seconds) and a
positive block, rounding never moves backward, and inputs whose
minute-of-hour remainder is zero are returned unchanged. -/
theorem roundBlock_forward_on_minute_aligned (t b : Int) (hb : 0 < b)
    (h60 : (60 : Int) ∣ t) :
    t ≤ roundBlock t b ∧ (t / 60 % 60 % b = 0 → roundBlock t b = t) :=
  ⟨le_roundBlock hb h60, fun hr => roundBlock_fix t h60 hr⟩

/-- Witness for C6's amended theorem at 00:15:00, block 15. -/
theorem roundBlock_forward_on_minute_aligned_witness :
    ((0 : Int) < 15 ∧ (60 : Int) ∣ 900) ∧
      (900 ≤ roundBlock 900 15 ∧ ((900 : Int) / 60 % 60 % 15 = 0 → roundBlock 900 15 = 900)) :=
  ⟨⟨by decide, by norm_num⟩,
    roundBlock_forward_on_minute_aligned 900 15 (by decide) (by norm_num)⟩

/-- Claim C8: for a positive block size the candidate-advance loop never
exhausts its iteration budget (one iteration per second of remaining
horizon suffices, since every advance strictly increases the candidate),
and when the loop exits at the horizon the function returns exactly the
block-rounding of `after + 12h` instead of raising. -/
theorem find_slot_terminates_within_budget
    (events : List Ev) (after block dur buf : Int) (avoid : Bool) (hb : 0 < block) :
    findSlotCore events after block dur buf avoid ≠ .fuelOut ∧
      (findSlotCore events after block dur buf avoid = .horizonEnd →
        find_next_available_slot events after block dur buf avoid
          = roundBlock (after + 43200) block) := by
  constructor
  · simp only [findSlotCore]
    exact findLoop_no_fuelOut hb _ _ (by omega)
  · intro h
    simp [find_next_available_slot, h]

/-- Witness for C8 on an empty busy set with the default parameters. -/
theorem find_slot_terminates_within_budget_witness :
    (0 : Int) < 15 ∧
      (findSlotCore [] 0 15 30 20 false ≠ .fuelOut ∧
        (findSlotCore [] 0 15 30 20 false = .horizonEnd →
          find_next_available_slot [] 0 15 30 20 false = roundBlock (0 + 43200) 15)) :=
  ⟨by decide, find_slot_terminates_within_budget [] 0 15 30 20 false (by decide)⟩

/-- Claim C5: reprioritization is a pure mapping of the mood signal,
applied uniformly to every task: low-energy moods force "low", focus moods
force "high", anything else resets to the user's baseline priority —
independent of the current effective priority and of any deadline. -/
theorem reprioritize_pure_mood_mapping (t : TaskRec) (sent : Option String) :
    ((sent.getD "neutral" = "tired" ∨ sent.getD "neutral" = "anxious" ∨
        sent.getD "neutral" = "overwhelmed") →
      (reprioritize t sent).effective_priority = "low") ∧
    ((sent.getD "neutral" = "focused" ∨ sent.getD "neutral" = "motivated") →
      (reprioritize t sent).effective_priority = "high") ∧
    (sent.getD "neutral" ∉
        (["tired", "anxious", "overwhelmed", "focused", "motivated"] : List String) →
      (reprioritize t sent).effective_priority = t.user_priority) ∧
    (∀ ts : List TaskRec, reprioritize_all ts sent = ts.map fun u => reprioritize u sent) := by
  refine ⟨?_, ?_, ?_, fun ts => rfl⟩
  · intro h
    simp only [reprioritize]
    rw [if_pos h]
  · intro h
    have hne : ¬(sent.getD "neutral" = "tired" ∨ sent.getD "neutral" = "anxious" ∨
        sent.getD "neutral" = "overwhelmed") := by
      rcases h with h | h <;> rw [h] <;> decide
    simp only [reprioritize]
    rw [if_neg hne, if_pos h]
  · intro h
    simp only [List.mem_cons, List.mem_singleton, not_or] at h
    obtain ⟨h1, h2, h3, h4, h5⟩ := h
    simp only [reprioritize]
    rw [if_neg (by tauto), if_neg (by tauto)]

/-- Witness for C5 at a task whose current effective priority differs from
the mood outcome. -/
theorem reprioritize_pure_mood_mapping_witness :
    ((some "tired" : Option String).getD "neutral" = "tired" ∨
        (some "tired" : Option String).getD "neutral" = "anxious" ∨
        (some "tired" : Option String).getD "neutral" = "overwhelmed") ∧
      (reprioritize ⟨"medium", "high", none⟩ (some "tired")).effective_priority = "low" :=
  ⟨by decide,
    (reprioritize_pure_mood_mapping ⟨"medium", "high", none⟩ (some "tired")).1 (by decide)⟩

/-- Claim C7 counterexample: for the negative duration −1 the formatted
tag `(-1m)` does not match the decoder's pattern, so decoding falls back
to the default 30, while `clamp(−1, 5, 240) = 5`. -/
theorem negative_duration_roundtrip_fails :
    duration_from_event_title (event_title_for_task 1 "x" (-1)) 30 = 30 ∧
      max 5 (min (-1 : Int) 240) = 5 ∧ (30 : Int) ≠ 5 := by decide

/-- Claim C7 amended: for every non-negative duration D, decoding the
formatted event title returns `clamp(D, 5, 240)`, for every task id and
title. -/
theorem duration_roundtrip_nonneg (tid : Nat) (title : String) (D : Int) (hD : 0 ≤ D) :
    duration_from_event_title (event_title_for_task tid title D) 30 = max 5 (min D 240) := by
  have hint : intChars D = natChars D.toNat := by
    unfold intChars
    rw [if_neg (by omega)]
  have hdata := event_title_data tid title D
  rw [hint] at hdata
  have hpre : ∀ c ∈ ['T', 'a', 's', 'k', '#'] ++ natChars tid ++ [' '], c ≠ '(' := by
    intro c hc
    rcases List.mem_append.mp hc with hc1 | hc1
    · rcases List.mem_append.mp hc1 with hc2 | hc2
      · fin_cases hc2 <;> decide
      · obtain ⟨m, hm, rfl⟩ := natChars_mem tid c hc2
        exact (digitChar_facts m hm).2.1
    · simp only [List.mem_singleton] at hc1
      subst hc1
      decide
  have hre : ['T', 'a', 's', 'k', '#'] ++ (natChars tid ++ (' ' :: '(' ::
        (natChars D.toNat ++ ('m' :: ')' :: ':' :: ' ' :: safeTitle title.data))))
      = (['T', 'a', 's', 'k', '#'] ++ natChars tid ++ [' ']) ++ ('(' ::
          (natChars D.toNat ++ 'm' :: ')' :: (':' :: ' ' :: safeTitle title.data))) := by
    simp [List.append_assoc]
  unfold duration_from_event_title
  rw [hdata, hre, if_neg (by simp)]
  rw [durSearch_tagged _ hpre D.toNat (':' :: ' ' :: safeTitle title.data)]
  simp only [Int.toNat_of_nonneg hD]

/-- Witness for C7's amended round trip at id 3, duration 75. -/
theorem duration_roundtrip_nonneg_witness :
    (0 : Int) ≤ 75 ∧
      duration_from_event_title (event_title_for_task 3 "write spec" 75) 30
        = max 5 (min (75 : Int) 240) :=
  ⟨by decide, duration_roundtrip_nonneg 3 "write spec" 75 (by decide)⟩

/-- Claim C9: staggered slots are the per-offset slot-finder results,
deduplicated preserving first-seen order (a sublist of the raw per-offset
results, with no duplicates) and capped at 5 entries; the scenario with
offsets [0, 30, 30, 90] and no conflicts yields exactly 3 results. -/
theorem staggered_slots_deduped_and_capped (events : List Ev) (base : Int)
    (offsets : List Int) (dur : Int) (avoid : Bool) :
    (staggered_slots events base offsets dur avoid).length ≤ 5 ∧
    (staggered_slots events base offsets dur avoid).Nodup ∧
    List.Sublist (staggered_slots events base offsets dur avoid)
      (offsets.map fun off =>
        find_next_available_slot events (base + 60 * off) 15 dur 20 avoid) ∧
    staggered_slots [] 32400 [0, 30, 30, 90] 30 false = [33300, 35100, 38700] ∧
    (staggered_slots [] 32400 [0, 30, 30, 90] 30 false).length = 3 := by
  refine ⟨?_, ?_, ?_, by decide, by decide⟩
  · show ((slotsLoop _ [] offsets).take 5).length ≤ 5
    simp [List.length_take]
  · exact List.Nodup.sublist (List.take_sublist 5 _) (slotsLoop_nodup _ offsets [] (by simp))
  · obtain ⟨r, hr, hs⟩ := slotsLoop_sublist
      (fun off => find_next_available_slot events (base + 60 * off) 15 dur 20 avoid) offsets []
    show List.Sublist ((slotsLoop _ [] offsets).take 5) _
    rw [hr]
    simp only [List.nil_append]
    exact (List.take_sublist 5 r).trans hs

/-- Claim C10: the `Task#<x> ` lookup pattern (mandatory trailing space)
never matches the generated title of a different task: decimal renderings
are digit-only, so one id's digits followed by a space cannot be a leading
segment of another id's digits. -/
theorem task_lookup_never_matches_other_task (x y : Nat) (hxy : x ≠ y)
    (title : String) (dur : Int) (s : TimeStr) :
    matchesTask x ⟨event_title_for_task y title dur, s⟩ = false :=
  matchesTask_other hxy title dur s

/-- Witness for C10: task 1's lookup pattern does not match task 12's
generated entry. -/
theorem task_lookup_never_matches_other_task_witness :
    (1 : Nat) ≠ 12 ∧
      matchesTask 1 ⟨event_title_for_task 12 "write report" 30, TimeStr.iso 36000⟩ = false :=
  ⟨by decide,
    task_lookup_never_matches_other_task 1 12 (by decide) "write report" 30
      (TimeStr.iso 36000)⟩

/-- Claim C2 counterexample: with one matching entry present and a
scheduled_time that is neither the sentinel nor parseable (malformed), the
synchronizer deletes the entry, leaving zero entries although
`scheduled_time ≠ "unscheduled"` — the claim demanded exactly one. -/
theorem sync_malformed_time_deletes_entry :
    taskEntryCount [⟨"Task#7 (30m): rest", .iso 36000⟩] 7 = 1 ∧
      TimeStr.malformed ≠ TimeStr.unsched ∧
      taskEntryCount
        (sync_task_event_on_update [⟨"Task#7 (30m): rest", .iso 36000⟩] 7 "rest"
          TimeStr.malformed 30) 7 = 0 := by
  decide

/-- Claim C2 amended: assuming at most one matching entry beforehand, the
synchronizer leaves exactly one entry when scheduled_time is truthy,
non-sentinel and parseable, and zero otherwise (absent, sentinel, or
malformed values are treated as unscheduled); creation from a fresh id
(no prior matching entry) leaves one entry whenever the requested schedule
is truthy and non-sentinel, even unparseable, and zero otherwise. -/
theorem sync_restores_entry_count (events : List Ev) (tid : Nat) (ttl : String)
    (stime : TimeStr) (dur : Int) (hpre : taskEntryCount events tid ≤ 1) :
    taskEntryCount (sync_task_event_on_update events tid ttl stime dur) tid
        = (if isSchedOf stime then 1 else 0) ∧
      (taskEntryCount events tid = 0 →
        taskEntryCount (create_task_db events tid ttl stime dur) tid
          = if timeTruthy stime && decide (stime ≠ TimeStr.unsched) then 1 else 0) := by
  constructor
  · unfold sync_task_event_on_update
    cases hsch : isSchedOf stime with
    | true =>
      rw [if_pos rfl]
      cases hfind : events.find? (matchesTask tid) with
      | some e =>
        unfold taskEntryCount
        exact count_updateFirst (matchesTask_own tid ttl dur stime) events hpre
          (by rw [hfind]; rfl)
      | none =>
        unfold taskEntryCount
        rw [List.filter_append, List.length_append, count_of_find?_none hfind]
        simp [matchesTask_own]
    | false =>
      rw [if_neg (by simp)]
      exact count_removeFirst events hpre
  · intro h0
    unfold create_task_db
    cases hc : timeTruthy stime && decide (stime ≠ TimeStr.unsched) with
    | true =>
      rw [if_pos rfl]
      unfold taskEntryCount at h0 ⊢
      rw [List.filter_append, List.length_append, h0]
      simp [matchesTask_own]
    | false =>
      rw [if_neg (by simp)]
      exact h0

/-- Witness for C2's amended theorem: creating and syncing a parseable
schedule for a fresh task id yields exactly one matching entry. -/
theorem sync_restores_entry_count_witness :
    taskEntryCount [] 7 ≤ 1 ∧
      (taskEntryCount (sync_task_event_on_update [] 7 "rest" (TimeStr.iso 36000) 30) 7
          = (if isSchedOf (TimeStr.iso 36000) then 1 else 0) ∧
        (taskEntryCount [] 7 = 0 →
          taskEntryCount (create_task_db [] 7 "rest" (TimeStr.iso 36000) 30) 7
            = if timeTruthy (TimeStr.iso 36000)
                && decide (TimeStr.iso 36000 ≠ TimeStr.unsched) then 1 else 0)) :=
  ⟨by decide, sync_restores_entry_count [] 7 "rest" (TimeStr.iso 36000) 30 (by decide)⟩

end MoodyBot
